/-
Verification of the codecompass analyzer core: a shallow embedding of the
Go sources (internal/git, internal/analyzer, internal/config,
internal/leaderboard, internal/utils) together with proofs about them.

Modelling conventions:
* Go maps become association lists with `mapLookup` / `mapInsert`
  (insert overwrites; keys stay distinct).  Reading a missing `int` value
  yields the zero value, as in Go (`bump`).
* Machine `int`s become `Int` (no arithmetic here comes near overflow).
* `float64` ratios are modelled exactly by `Rat`.
* External effects (the `git` subprocess, `os.Stat`, `filepath.Match`)
  are oracle parameters; the process-wide cache/memo state of the git
  package is threaded explicitly through `GitState`, which also counts
  subprocess invocations for the caching claims.
* `time.Now()` is an explicit `now : Int` parameter.
-/

import Mathlib

namespace CodeCompass

/-! ## Association-list maps (model of Go maps) -/

def mapLookup {κ ν : Type} [BEq κ] (m : List (κ × ν)) (k : κ) : Option ν :=
  (m.find? (fun p => p.1 == k)).map (·.2)

def mapInsert {κ ν : Type} [BEq κ] (m : List (κ × ν)) (k : κ) (v : ν) :
    List (κ × ν) :=
  (k, v) :: m.filter (fun p => !(p.1 == k))

def mapKeys {κ ν : Type} (m : List (κ × ν)) : List κ := m.map (·.1)

/-- Model of Go `m[k]++` on a `map[κ]int`: a missing key reads as 0. -/
def bump {κ : Type} [BEq κ] (m : List (κ × Int)) (k : κ) : List (κ × Int) :=
  mapInsert m k ((mapLookup m k).getD 0 + 1)

theorem mapLookup_insert_self {κ ν : Type} [BEq κ] [LawfulBEq κ]
    (m : List (κ × ν)) (k : κ) (v : ν) :
    mapLookup (mapInsert m k v) k = some v := by
  simp [mapLookup, mapInsert, List.find?]

theorem mapLookup_insert_ne {κ ν : Type} [BEq κ] [LawfulBEq κ]
    (m : List (κ × ν)) (k k' : κ) (v : ν) (h : k' ≠ k) :
    mapLookup (mapInsert m k v) k' = mapLookup m k' := by
  simp only [mapLookup, mapInsert]
  have hne : ¬ (k == k') = true := by simp [BEq.comm]; exact fun e => h e.symm
  rw [List.find?]
  simp only [hne, cond_false]
  induction m with
  | nil => simp
  | cons p t ih =>
    by_cases hp : (p.1 == k') = true
    · have : ¬ (p.1 == k) = true := by
        simp at hp; simp [hp]; exact h
      simp [List.filter, this, List.find?, hp]
    · by_cases hq : (p.1 == k) = true
      · simp [List.filter, hq, List.find?, hp] at ih ⊢
        exact ih
      · simp [List.filter, hq, List.find?, hp] at ih ⊢
        exact ih

theorem mapLookup_mem {κ ν : Type} [BEq κ] [LawfulBEq κ]
    {m : List (κ × ν)} {k : κ} {v : ν} (h : mapLookup m k = some v) :
    (k, v) ∈ m := by
  simp only [mapLookup, Option.map_eq_some'] at h
  obtain ⟨p, hp, hv⟩ := h
  have hmem := List.mem_of_find?_eq_some hp
  have hpred := List.find?_some hp
  simp at hpred
  cases p with
  | mk a b => simp at hv; subst hv; subst hpred; exact hmem

theorem mem_mapInsert {κ ν : Type} [BEq κ]
    {m : List (κ × ν)} {k : κ} {v : ν} {p : κ × ν}
    (h : p ∈ mapInsert m k v) : p = (k, v) ∨ p ∈ m := by
  simp only [mapInsert, List.mem_cons] at h
  rcases h with h | h
  · exact Or.inl h
  · exact Or.inr (List.mem_of_mem_filter h)

/-! ## String helpers (models of Go `strings` functions).

All of them recurse structurally over the character list of the string, so
that concrete runs reduce inside the kernel. -/

/-- Split a character list at every occurrence of `sep` (the semantics of
Go `strings.Split` with a one-character separator). -/
def charSplit (sep : Char) : List Char → List (List Char)
  | [] => [[]]
  | c :: rest =>
    let r := charSplit sep rest
    if c == sep then [] :: r
    else
      match r with
      | [] => [[c]]
      | h :: t => (c :: h) :: t

/-- Split a character list at every character satisfying `p`. -/
def charSplitP (p : Char → Bool) : List Char → List (List Char)
  | [] => [[]]
  | c :: rest =>
    let r := charSplitP p rest
    if p c then [] :: r
    else
      match r with
      | [] => [[c]]
      | h :: t => (c :: h) :: t

/-- `sub` occurs as a contiguous run of `s`. -/
def charsContain (s sub : List Char) : Bool :=
  match s with
  | [] => sub.isEmpty
  | _ :: t => sub.isPrefixOf s || charsContain t sub

/-- Model of Go `strings.ToLower` (ASCII-adequate for this code base). -/
def strToLower (s : String) : String := String.mk (s.toList.map Char.toLower)

/-- Model of Go `strings.Contains s sub`. -/
def containsSubstr (s sub : String) : Bool := charsContain s.toList sub.toList

/-- Model of Go `strings.EqualFold`. -/
def equalFold (a b : String) : Bool := strToLower a == strToLower b

/-- Model of Go `strings.HasPrefix s pre`. -/
def hasPrefixStr (s pre : String) : Bool := pre.toList.isPrefixOf s.toList

/-- Drop the first `n` characters (used to model `strings.TrimPrefix` after
a `HasPrefix` check). -/
def strDropChars (s : String) (n : Nat) : String := String.mk (s.toList.drop n)

/-- Model of Go `strings.TrimSpace`. -/
def goTrim (s : String) : String :=
  String.mk (((s.toList.dropWhile Char.isWhitespace).reverse.dropWhile
    Char.isWhitespace).reverse)

/-- Model of Go `strings.Fields`: split on whitespace, drop empty pieces. -/
def goFields (s : String) : List String :=
  ((charSplitP Char.isWhitespace s.toList).filter (fun t => ¬ t.isEmpty)).map String.mk

/-- Model of `bufio.Scanner` line splitting over a whole string. -/
def splitLines (s : String) : List String := (charSplit '\n' s.toList).map String.mk

/-- Model of Go `strings.Trim(s, "<>")`. -/
def trimAngle (s : String) : String :=
  let inSet : Char → Bool := fun c => c == '<' || c == '>'
  String.mk (((s.toList.dropWhile inSet).reverse.dropWhile inSet).reverse)

/-! ## git package: `parseBlameOutput` -/

structure BlameInfo where
  email : String
  name  : String
deriving Repr, DecidableEq

/-- A `map[int]types.BlameInfo`. -/
abbrev BlameIndex := List (Int × BlameInfo)

/-- Model of the regex `^[0-9a-f]{40} `: forty lowercase-hex characters
followed by a space. -/
def isCommitHeader (l : String) : Bool :=
  let cs := l.toList
  decide (cs.length ≥ 41) && (cs.take 40).all (fun c => c.isDigit || ('a' ≤ c && c ≤ 'f'))
    && ((cs.drop 40).head? == some ' ')

/-- Digit-sequence value: `none` unless the list is non-empty and all
digits. -/
def digitsVal (cs : List Char) : Option Nat :=
  if cs.isEmpty then none
  else
    cs.foldl
      (fun acc c =>
        match acc with
        | none => none
        | some n => if c.isDigit then some (n * 10 + (c.toNat - 48)) else none)
      (some 0)

/-- Model of Go `strconv.Atoi`: an optional sign followed by decimal
digits (overflow aside, which no blame line number approaches). -/
def atoi (s : String) : Option Int :=
  match s.toList with
  | '-' :: rest => (digitsVal rest).map (fun n => -(n : Int))
  | '+' :: rest => (digitsVal rest).map (fun n => (n : Int))
  | cs => (digitsVal cs).map (fun n => (n : Int))

structure ParseState where
  currentEmail : String
  currentName  : String
  currentLine  : Int
  blameMap     : BlameIndex
deriving Repr

/-- One iteration of the scanner loop in `parseBlameOutput`
(src/internal/git, lines 351–378). -/
def blameStep (ps : ParseState) (line : String) : ParseState :=
  if isCommitHeader line then
    let parts := goFields line
    if h : parts.length ≥ 3 then
      match atoi (parts.get ⟨2, by omega⟩) with
      | some lineNum => { ps with currentLine := lineNum }
      | none => ps
    else ps
  else if hasPrefixStr line "author " then
    { ps with currentName := goTrim (strDropChars line 7) }
  else if hasPrefixStr line "author-mail " then
    { ps with currentEmail := goTrim (trimAngle (strDropChars line 12)) }
  else if hasPrefixStr line "\t" then
    let m :=
      if ps.currentEmail ≠ "" ∧ ps.currentLine > 0 then
        mapInsert ps.blameMap ps.currentLine ⟨ps.currentEmail, ps.currentName⟩
      else ps.blameMap
    { currentEmail := "", currentName := "", currentLine := 0, blameMap := m }
  else ps

/-- Model of `parseBlameOutput` (src/internal/git, lines 343–381). -/
def parseBlameOutput (output : String) : BlameIndex :=
  ((splitLines output).foldl blameStep
    { currentEmail := "", currentName := "", currentLine := 0, blameMap := [] }).blameMap

/-! ## analyzer package: nearest-line selection -/

/-- Model of Go `sort.Ints` (ascending). -/
def sortInts (l : List Int) : List Int := List.insertionSort (· ≤ ·) l

/-- The `for _, line := range lines { if line >= issue.Line { nearestLine = line; break } }`
loop of `processIssueInternal`, with `nearestLine` zero-initialised. -/
def firstGE : List Int → Int → Int
  | [], _ => 0
  | l :: ls, t => if l ≥ t then l else firstGE ls t

/-- The nearest-line computation of `processIssueInternal`
(src analyzer, lines 74–90): sort the keys ascending, take the first key
`≥ issue.Line`, and if that loop left `nearestLine` at 0 fall back to the
last (largest) key. -/
def nearestLine (blameMap : BlameIndex) (issueLine : Int) : Int :=
  let lines := sortInts (mapKeys blameMap)
  let nl := firstGE lines issueLine
  if nl == 0 ∧ lines.length > 0 then lines.getLastD 0 else nl

/-! ## utils package: Semaphore -/

/-- Model of `utils.Semaphore`: a buffered channel of the given capacity.
`capacity` is the buffer size passed to `make(chan struct\x7b\x7d, max)`. -/
structure Semaphore where
  capacity : Int
deriving Repr, DecidableEq

/-- Model of `utils.NewSemaphore` (src utils, lines 7–11): it performs no
validation and unconditionally wraps a channel of the requested capacity. -/
def NewSemaphore (max : Int) : Semaphore := { capacity := max }

/-- Whether `Acquire` (a send on the buffered channel) can complete without
blocking when `held` permits are outstanding and no receiver waits:
a buffered-channel send proceeds exactly when the buffer is not full. -/
def canAcquire (s : Semaphore) (held : Nat) : Bool := decide ((held : Int) < s.capacity)

/-! ## git package: `BlameFile` cache/memo state machine -/

/-- The process-wide mutable state of the git package
(`blameCache`, `blameFailures`), plus an instrumentation counter for
subprocess invocations (the spec's call-count instrumentation on a fake
command runner). -/
structure GitState where
  blameCache    : List (String × BlameIndex)
  blameFailures : List String
  runnerCalls   : Nat
deriving Repr

def GitState.initial : GitState := { blameCache := [], blameFailures := [], runnerCalls := 0 }

/-- Result of one `BlameFile` call: the returned index and error (Go returns
both), the warning log after the call, and the git package state after. -/
structure BlameResult where
  index : BlameIndex
  err   : Option String
  logs  : List String
  git   : GitState
deriving Repr

/-- Model of Go `strings.ReplaceAll(filePath, "\\", "/")` (a per-character
replacement, since the pattern is a single character). -/
def normalizeSlashes (filePath : String) : String :=
  String.mk (filePath.toList.map (fun c => if c == '\\' then '/' else c))

/-- Model of `git.BlameFile` (src/internal/git, lines 299–341).  The
subprocess `git blame --line-porcelain -- normalizedPath` is the oracle
`runner`, mapping the normalized path to raw output or an error string;
each oracle consultation increments `runnerCalls`. -/
def BlameFile (runner : String → Except String String) (filePath : String)
    (warningLogs : List String) (st : GitState) : BlameResult :=
  match mapLookup st.blameCache filePath with
  | some blameMap => { index := blameMap, err := none, logs := warningLogs, git := st }
  | none =>
    if st.blameFailures.contains filePath then
      { index := [], err := some "file already failed", logs := warningLogs, git := st }
    else
      let normalizedPath := normalizeSlashes filePath
      match runner normalizedPath with
      | Except.error e =>
        { index := []
          err := some e
          logs := warningLogs ++ [s!"⚠️ Blame failed for {filePath}: {e}"]
          git := { st with blameFailures := st.blameFailures ++ [filePath]
                           runnerCalls := st.runnerCalls + 1 } }
      | Except.ok output =>
        let blameMap := parseBlameOutput output
        { index := blameMap
          err := none
          logs := warningLogs
          git := { st with blameCache := mapInsert st.blameCache filePath blameMap
                           runnerCalls := st.runnerCalls + 1 } }

/-! ## config package -/

/-- The fields of `config.Config` that the analyzer path reads. -/
structure Config where
  ignoredFiles   : List String
  ignoredAuthors : List String
  ignoredRules   : List String
  ignoredPaths   : List String
  maxFileSize    : Int
deriving Repr

/-- OS-level oracles: `os.Stat(path).Size()` (none models a stat error) and
`filepath.Match pattern name` (a match error counts as no match, as the Go
code discards it). -/
structure SysEnv where
  statSize  : String → Option Int
  globMatch : String → String → Bool

/-- Model of Go `filepath.Base` for slash-separated paths. -/
def baseName (p : String) : String :=
  if p = "" then "."
  else
    match ((p.splitOn "/").filter (fun s => s ≠ "")).getLast? with
    | some s => s
    | none => "/"

/-- Model of `Config.ShouldIgnoreFile` (src config, lines 195–227). -/
def ShouldIgnoreFile (env : SysEnv) (c : Config) (filePath : String) : Bool :=
  (c.maxFileSize > 0 &&
    (match env.statSize filePath with
     | some size => decide (size > c.maxFileSize * 1024)
     | none => false))
  || c.ignoredFiles.any (fun pattern =>
       env.globMatch pattern (baseName filePath)
       || containsSubstr filePath pattern
       || env.globMatch pattern filePath)
  || c.ignoredPaths.any (fun pattern => containsSubstr filePath pattern)

/-- Model of `Config.ShouldIgnoreAuthor` (src config, lines 229–244). -/
def ShouldIgnoreAuthor (c : Config) (email name : String) : Bool :=
  c.ignoredAuthors.any (fun ignored =>
    equalFold ignored email || equalFold ignored name
    || containsSubstr (strToLower email) (strToLower ignored)
    || containsSubstr (strToLower name) (strToLower ignored))

/-- Model of `Config.ShouldIgnoreRule` (src config, lines 246–253). -/
def ShouldIgnoreRule (c : Config) (ruleID : String) : Bool :=
  c.ignoredRules.any (fun ignored => ignored == ruleID)

/-! ## types and analyzer packages -/

structure Issue where
  filePath : String
  line     : Int
  ruleID   : String
  message  : String
  severity : Int
deriving Repr

structure AuthorStats where
  name      : String
  count     : Int
  rules     : List (String × Int)
  files     : List (String × Int)
  errors    : Int
  warnings  : Int
  firstSeen : Int
  lastSeen  : Int
deriving Repr

structure FileStats where
  path    : String
  count   : Int
  rules   : List (String × Int)
  authors : List (String × Int)
deriving Repr

structure RuleStats where
  rule    : String
  count   : Int
  authors : List (String × Int)
  files   : List (String × Int)
deriving Repr

/-- The state `processIssueInternal` touches: the three aggregate maps, the
shared warning log and the git package state. -/
structure AnalyzerState where
  authorStats : List (String × AuthorStats)
  fileStats   : List (String × FileStats)
  ruleStats   : List (String × RuleStats)
  warningLogs : List String
  git         : GitState
deriving Repr

/-- The zero-counter record `processIssueInternal` creates for an unseen
author (src analyzer, lines 108–117). -/
def freshAuthorStats (now : Int) (bi : BlameInfo) : AuthorStats :=
  { name := bi.name, count := 0, rules := [], files := []
    errors := 0, warnings := 0, firstSeen := now, lastSeen := now }

/-- The author-record mutation block of `processIssueInternal`
(src analyzer, lines 119–131). -/
def updatedAuthor (now : Int) (issue : Issue) (bi : BlameInfo)
    (prev : AuthorStats) : AuthorStats :=
  { prev with
      name := bi.name
      count := prev.count + 1
      rules := bump prev.rules issue.ruleID
      files := bump prev.files issue.filePath
      errors := if issue.severity == 2 then prev.errors + 1 else prev.errors
      warnings := if issue.severity == 2 then prev.warnings else prev.warnings + 1
      lastSeen := if now > prev.lastSeen then now else prev.lastSeen }

/-- The aggregate-update section of `processIssueInternal`
(src analyzer, lines 105–157), entered once a contributor has been
resolved and not excluded.  `now` models `time.Now()`. -/
def recordIssue (now : Int) (issue : Issue) (blameInfo : BlameInfo)
    (st : AnalyzerState) : AnalyzerState :=
  let newAuthor := updatedAuthor now issue blameInfo
    ((mapLookup st.authorStats blameInfo.email).getD (freshAuthorStats now blameInfo))
  let prevFile :=
    match mapLookup st.fileStats issue.filePath with
    | some s => s
    | none => { path := issue.filePath, count := 0, rules := [], authors := [] }
  let newFile :=
    { prevFile with
        count := prevFile.count + 1
        rules := bump prevFile.rules issue.ruleID
        authors := bump prevFile.authors blameInfo.email }
  let prevRule :=
    match mapLookup st.ruleStats issue.ruleID with
    | some s => s
    | none => { rule := issue.ruleID, count := 0, authors := [], files := [] }
  let newRule :=
    { prevRule with
        count := prevRule.count + 1
        authors := bump prevRule.authors blameInfo.email
        files := bump prevRule.files issue.filePath }
  { st with
      authorStats := mapInsert st.authorStats blameInfo.email newAuthor
      fileStats := mapInsert st.fileStats issue.filePath newFile
      ruleStats := mapInsert st.ruleStats issue.ruleID newRule }

/-- Model of `Analyzer.processIssueInternal` (src analyzer, lines 57–160).
Returns the Go error value and the state after the call. -/
def processIssueInternal (runner : String → Except String String)
    (now : Int) (issue : Issue) (cfg : Option Config)
    (st : AnalyzerState) : Option String × AnalyzerState :=
  let r := BlameFile runner issue.filePath st.warningLogs st.git
  let st := { st with warningLogs := r.logs, git := r.git }
  match r.err with
  | some e => (some e, st)
  | none =>
    if r.index.length = 0 then (none, st)
    else
      let nl := nearestLine r.index issue.line
      match mapLookup r.index nl with
      | none => (none, st)
      | some blameInfo =>
        if (match cfg with
            | some c => ShouldIgnoreAuthor c blameInfo.email blameInfo.name
            | none => false) then
          (none, st)
        else
          (none, recordIssue now issue blameInfo st)

/-- Model of `Analyzer.ProcessIssue` (src analyzer, lines 26–34). -/
def ProcessIssue (runner : String → Except String String)
    (now : Int) (issue : Issue) (st : AnalyzerState) : Option String × AnalyzerState :=
  processIssueInternal runner now issue none st

/-- Model of `Analyzer.ProcessIssueWithConfig` (src analyzer, lines 36–55). -/
def ProcessIssueWithConfig (env : SysEnv) (runner : String → Except String String)
    (now : Int) (issue : Issue) (cfg : Option Config)
    (st : AnalyzerState) : Option String × AnalyzerState :=
  if (match cfg with
      | some c => ShouldIgnoreFile env c issue.filePath
      | none => false) then (none, st)
  else if (match cfg with
      | some c => ShouldIgnoreRule c issue.ruleID
      | none => false) then (none, st)
  else processIssueInternal runner now issue cfg st

/-! ## leaderboard package: bug density -/

structure BugDensityEntry where
  path         : String
  bugFixes     : Int
  totalCommits : Int
  bugRatio     : Rat
deriving Repr, DecidableEq

/-- Model of the regex `(?i)(fix|bug|issue|error|broken|crash|repair)`:
case-insensitive containment of any of the alternatives. -/
def bugRegexMatch (message : String) : Bool :=
  ["fix", "bug", "issue", "error", "broken", "crash", "repair"].any
    (fun w => containsSubstr (strToLower message) w)

/-- Loop state of `GenerateBugDensityLeaderboard`: the per-file counters,
whether the current commit's message is bug-indicating, and the tracked
files collected for the current commit. -/
structure BDState where
  fileStats          : List (String × BugDensityEntry)
  currentCommitIsBug : Bool
  currentFiles       : List String
deriving Repr

/-- Per-file counter bump for one commit: `TotalCommits++`, and
`BugFixes++` when the commit is bug-indicating. -/
def bdBump (isBug : Bool) (fs : List (String × BugDensityEntry)) (filePath : String) :
    List (String × BugDensityEntry) :=
  let entry :=
    match mapLookup fs filePath with
    | some e => e
    | none => { path := filePath, bugFixes := 0, totalCommits := 0, bugRatio := 0 }
  let entry :=
    { entry with
        totalCommits := entry.totalCommits + 1
        bugFixes := if isBug then entry.bugFixes + 1 else entry.bugFixes }
  mapInsert fs filePath entry

/-- One iteration of the line loop of `GenerateBugDensityLeaderboard`
(src/internal/leaderboard/leaderboard.go, lines 281–316).  On a line
containing `|` the *previous* commit's collected files are counted, then
the new commit's bug flag is computed; other non-empty lines are file
names, collected when tracked. -/
def bdStep (trackedFiles : List String) (st : BDState) (rawLine : String) : BDState :=
  let line := goTrim rawLine
  if line = "" then st
  else if containsSubstr line "|" then
    let fs :=
      if st.currentFiles.length > 0 then
        st.currentFiles.foldl (bdBump st.currentCommitIsBug) st.fileStats
      else st.fileStats
    let parts := (charSplit '|' line.toList).map String.mk
    if parts.length = 2 then
      { fileStats := fs
        currentCommitIsBug := bugRegexMatch (parts.getD 1 "")
        currentFiles := [] }
    else { st with fileStats := fs }
  else
    if trackedFiles.contains line then
      { st with currentFiles := st.currentFiles ++ [line] }
    else st

/-- Model of `GenerateBugDensityLeaderboard`
(src/internal/leaderboard/leaderboard.go, lines 266–333) applied to the
raw `git log --name-only --pretty=format:%H|%s` output (the subprocess
output is the `output` parameter; `topN` is accepted and, as in the
source, unused).  Entries are kept exactly when `TotalCommits ≥ 5`,
with `BugRatio = BugFixes/TotalCommits × 100` (set for `TotalCommits > 0`),
sorted by descending ratio. -/
def GenerateBugDensityLeaderboard (trackedFiles : List String) (_topN : Int)
    (output : String) : List BugDensityEntry :=
  let st := (splitLines output).foldl (bdStep trackedFiles)
    { fileStats := [], currentCommitIsBug := false, currentFiles := [] }
  let entries := (st.fileStats.map (·.2)).map (fun e =>
    if e.totalCommits > 0 then
      { e with bugRatio := (e.bugFixes : Rat) / (e.totalCommits : Rat) * 100 }
    else e)
  let entries := entries.filter (fun e => e.totalCommits ≥ 5)
  List.insertionSort (fun a b => b.bugRatio ≤ a.bugRatio) entries

/-! ## Theorems: nearest-line selection (C1) -/

theorem firstGE_of_exists {s : List Int} {t : Int} (hs : List.Sorted (· ≤ ·) s)
    (h : ∃ x ∈ s, t ≤ x) :
    firstGE s t ∈ s ∧ t ≤ firstGE s t ∧ ∀ x ∈ s, t ≤ x → firstGE s t ≤ x := by
  induction s with
  | nil => simp at h
  | cons a l ih =>
    rw [List.sorted_cons] at hs
    by_cases ha : a ≥ t
    · refine ⟨by simp [firstGE, ha], by simp [firstGE, ha], ?_⟩
      intro x hx _
      simp only [firstGE, ha, if_pos]
      rcases List.mem_cons.mp hx with rfl | hxl
      · exact le_refl x
      · exact hs.1 x hxl
    · have h' : ∃ x ∈ l, t ≤ x := by
        rcases h with ⟨x, hx, hxt⟩
        rcases List.mem_cons.mp hx with rfl | hxl
        · omega
        · exact ⟨x, hxl, hxt⟩
      obtain ⟨h1, h2, h3⟩ := ih hs.2 h'
      refine ⟨List.mem_cons_of_mem _ (by simpa [firstGE, ha] using h1),
              by simpa [firstGE, ha] using h2, ?_⟩
      intro x hx hxt
      simp only [firstGE, ha, if_neg, if_false]
      rcases List.mem_cons.mp hx with rfl | hxl
      · omega
      · exact h3 x hxl hxt

theorem firstGE_of_forall_lt {s : List Int} {t : Int} (h : ∀ x ∈ s, x < t) :
    firstGE s t = 0 := by
  induction s with
  | nil => rfl
  | cons a l ih =>
    have ha : ¬ a ≥ t := by have := h a (List.mem_cons_self a l); omega
    simp only [firstGE, ha, if_false]
    exact ih (fun x hx => h x (List.mem_cons_of_mem a hx))

theorem le_getLastD_of_sorted {s : List Int} (hs : List.Sorted (· ≤ ·) s) :
    ∀ x ∈ s, x ≤ s.getLastD 0 := by
  induction s with
  | nil => simp
  | cons a l ih =>
    rw [List.sorted_cons] at hs
    intro x hx
    cases l with
    | nil => simp at hx; simp [hx]
    | cons b l' =>
      rw [List.getLastD_cons]
      rcases List.mem_cons.mp hx with rfl | hxl
      · calc x ≤ b := hs.1 b (List.mem_cons_self b l')
          _ ≤ (b :: l').getLastD 0 := ih hs.2 b (List.mem_cons_self b l')
      · simpa using ih hs.2 x hxl

theorem getLastD_mem_of_ne_nil {s : List Int} (h : s ≠ []) : s.getLastD 0 ∈ s := by
  cases s with
  | nil => exact absurd rfl h
  | cons a l =>
    rw [List.getLastD_eq_getLast?, List.getLast?_eq_getLast (a :: l) (by simp)]
    simp only [Option.getD_some]
    exact List.getLast_mem _

/-- Claim C1: for a non-empty BlameIndex with positive line numbers, the
resolver selects the smallest index line that is at least the issue's line;
when no index line is at least the issue's line, it falls back to the
largest index line. -/
theorem c1_resolver_nearest_line (m : BlameIndex) (issueLine : Int)
    (hne : m ≠ []) (hpos : ∀ k ∈ mapKeys m, 0 < k) :
    nearestLine m issueLine ∈ mapKeys m ∧
    ((∃ k ∈ mapKeys m, issueLine ≤ k) →
      issueLine ≤ nearestLine m issueLine ∧
      ∀ k ∈ mapKeys m, issueLine ≤ k → nearestLine m issueLine ≤ k) ∧
    ((∀ k ∈ mapKeys m, k < issueLine) →
      ∀ k ∈ mapKeys m, k ≤ nearestLine m issueLine) := by
  have hmem : ∀ x : Int, x ∈ sortInts (mapKeys m) ↔ x ∈ mapKeys m := by
    intro x; simp [sortInts]
  have hsorted : List.Sorted (· ≤ ·) (sortInts (mapKeys m)) :=
    List.sorted_insertionSort _ _
  have hkne : mapKeys m ≠ [] := by
    cases m with
    | nil => exact absurd rfl hne
    | cons p l => simp [mapKeys]
  have hsne : sortInts (mapKeys m) ≠ [] := by
    intro hcon
    rcases List.exists_mem_of_ne_nil _ hkne with ⟨x, hx⟩
    have := (hmem x).mpr hx
    rw [hcon] at this
    simp at this
  by_cases hex : ∃ k ∈ mapKeys m, issueLine ≤ k
  · obtain ⟨k₀, hk₀, hk₀t⟩ := hex
    obtain ⟨h1, h2, h3⟩ := firstGE_of_exists hsorted ⟨k₀, (hmem k₀).mpr hk₀, hk₀t⟩
    have hnlpos : 0 < firstGE (sortInts (mapKeys m)) issueLine :=
      hpos _ ((hmem _).mp h1)
    have hval : nearestLine m issueLine = firstGE (sortInts (mapKeys m)) issueLine := by
      simp only [nearestLine]
      rw [if_neg]
      intro ⟨hz, _⟩
      rw [beq_iff_eq] at hz
      omega
    refine ⟨hval ▸ (hmem _).mp h1, fun _ => ⟨hval ▸ h2, ?_⟩, fun habs => ?_⟩
    · intro k hk hkt
      rw [hval]
      exact h3 k ((hmem k).mpr hk) hkt
    · exact absurd hk₀t (by have := habs k₀ hk₀; omega)
  · push_neg at hex
    have hlt : ∀ x ∈ sortInts (mapKeys m), x < issueLine := by
      intro x hx
      exact hex x ((hmem x).mp hx)
    have hz := firstGE_of_forall_lt hlt
    have hval : nearestLine m issueLine = (sortInts (mapKeys m)).getLastD 0 := by
      simp only [nearestLine]
      rw [if_pos]
      exact ⟨by rw [hz]; rfl, by cases hs : sortInts (mapKeys m) with
        | nil => exact absurd hs hsne
        | cons a l => simp⟩
    have hlmem : (sortInts (mapKeys m)).getLastD 0 ∈ mapKeys m :=
      (hmem _).mp (getLastD_mem_of_ne_nil hsne)
    refine ⟨hval ▸ hlmem, fun hcon => ?_, fun _ => ?_⟩
    · obtain ⟨k, hk, hkt⟩ := hcon
      exact absurd hkt (by have := hex k hk; omega)
    · intro k hk
      rw [hval]
      exact le_getLastD_of_sorted hsorted k ((hmem k).mpr hk)

/-- Witness for C1 at the spec's own example: index lines 5, 10, 20. -/
def exampleIndex : BlameIndex :=
  [(5, ⟨"a@x", "A"⟩), (10, ⟨"b@x", "B"⟩), (20, ⟨"c@x", "C"⟩)]

/-- Witness for C1: on index lines 5, 10, 20 an issue at line 7 selects a
line of the index that is at least 7 and at most 10 (hence 10). -/
theorem c1_resolver_nearest_line_witness :
    nearestLine exampleIndex 7 ∈ mapKeys exampleIndex ∧
    7 ≤ nearestLine exampleIndex 7 ∧ nearestLine exampleIndex 7 ≤ 10 := by
  have h := c1_resolver_nearest_line exampleIndex 7 (by decide) (by decide)
  obtain ⟨h1, h2, -⟩ := h
  obtain ⟨h3, h4⟩ := h2 ⟨10, by decide, by decide⟩
  exact ⟨h1, h3, h4 10 (by decide) (by decide)⟩

/-! ## Theorems: blame parsing (C5) -/

theorem blameStep_emails {ps : ParseState} (line : String)
    (h : ∀ p ∈ ps.blameMap, p.2.email ≠ "") :
    ∀ p ∈ (blameStep ps line).blameMap, p.2.email ≠ "" := by
  intro p hp
  unfold blameStep at hp
  by_cases h1 : isCommitHeader line = true
  · simp only [h1, if_true] at hp
    by_cases h2 : (goFields line).length ≥ 3
    · rw [dif_pos h2] at hp
      rcases hv : atoi ((goFields line).get ⟨2, by omega⟩) with _ | n
      · rw [hv] at hp; exact h p hp
      · rw [hv] at hp; exact h p hp
    · rw [dif_neg h2] at hp; exact h p hp
  · simp only [h1, if_false] at hp
    by_cases h3 : hasPrefixStr line "author " = true
    · simp only [h3, if_true] at hp; exact h p hp
    · simp only [h3, if_false] at hp
      by_cases h4 : hasPrefixStr line "author-mail " = true
      · simp only [h4, if_true] at hp; exact h p hp
      · simp only [h4, if_false] at hp
        by_cases h5 : hasPrefixStr line "\t" = true
        · simp only [h5, if_true] at hp
          by_cases h6 : ps.currentEmail ≠ "" ∧ ps.currentLine > 0
          · rw [if_pos h6] at hp
            rcases mem_mapInsert hp with rfl | hmem
            · exact h6.1
            · exact h p hmem
          · rw [if_neg h6] at hp; exact h p hp
        · simp only [h5, if_false] at hp; exact h p hp

theorem foldl_blameStep_emails (lines : List String) (ps : ParseState)
    (h : ∀ p ∈ ps.blameMap, p.2.email ≠ "") :
    ∀ p ∈ (lines.foldl blameStep ps).blameMap, p.2.email ≠ "" := by
  induction lines generalizing ps with
  | nil => exact h
  | cons l ls ih => exact ih _ (blameStep_emails l h)

/-- Claim C5: every entry of a BlameIndex produced by parsing raw blame
output has a non-empty contributor email; records lacking identity or line
number are skipped rather than inserted, and parsing never aborts (it is a
total fold over the remaining records). -/
theorem c5_parsed_entries_have_identity (output : String) (k : Int) (info : BlameInfo)
    (h : mapLookup (parseBlameOutput output) k = some info) : info.email ≠ "" := by
  have hall := foldl_blameStep_emails (splitLines output)
    { currentEmail := "", currentName := "", currentLine := 0, blameMap := [] }
    (by intro p hp; exact absurd hp (List.not_mem_nil p))
  exact hall (k, info) (mapLookup_mem h)

/-- A concrete porcelain fragment: one record attributed to alice@x. -/
def sampleBlameOutput : String :=
  "aaaaaaaaaaaaaaaaaaaaaaaaaaaaaaaaaaaaaaaa 1 1 1\nauthor Alice\nauthor-mail <alice@x>\n\tconsole.log(1)"

/-- Witness for C5: the parsed sample yields the alice@x entry at line 1,
whose email the theorem shows non-empty. -/
theorem c5_parsed_entries_have_identity_witness :
    mapLookup (parseBlameOutput sampleBlameOutput) 1 = some ⟨"alice@x", "Alice"⟩ ∧
    BlameInfo.email ⟨"alice@x", "Alice"⟩ ≠ "" :=
  ⟨by decide,
   c5_parsed_entries_have_identity sampleBlameOutput 1 ⟨"alice@x", "Alice"⟩ (by decide)⟩

/-! ## Theorems: BlameFile caching and failure memo (C2, C3, C8) -/

theorem blameFile_cache_hit {runner : String → Except String String}
    {p : String} {logs : List String} {st : GitState} {m : BlameIndex}
    (hc : mapLookup st.blameCache p = some m) :
    BlameFile runner p logs st = { index := m, err := none, logs := logs, git := st } := by
  unfold BlameFile
  rw [hc]

theorem blameFile_memo_hit {runner : String → Except String String}
    {p : String} {logs : List String} {st : GitState}
    (hc : mapLookup st.blameCache p = none)
    (hf : st.blameFailures.contains p = true) :
    BlameFile runner p logs st =
      { index := [], err := some "file already failed", logs := logs, git := st } := by
  unfold BlameFile
  rw [hc, if_pos hf]

theorem blameFile_runner_error {runner : String → Except String String}
    {p : String} {logs : List String} {st : GitState} {e : String}
    (hc : mapLookup st.blameCache p = none)
    (hf : st.blameFailures.contains p = false)
    (hr : runner (normalizeSlashes p) = Except.error e) :
    BlameFile runner p logs st =
      { index := [], err := some e
        logs := logs ++ [s!"⚠️ Blame failed for {p}: {e}"]
        git := { st with blameFailures := st.blameFailures ++ [p]
                         runnerCalls := st.runnerCalls + 1 } } := by
  unfold BlameFile
  rw [hc, if_neg (by rw [hf]; exact Bool.false_ne_true)]
  simp only [hr]

theorem blameFile_runner_ok {runner : String → Except String String}
    {p : String} {logs : List String} {st : GitState} {out : String}
    (hc : mapLookup st.blameCache p = none)
    (hf : st.blameFailures.contains p = false)
    (hr : runner (normalizeSlashes p) = Except.ok out) :
    BlameFile runner p logs st =
      { index := parseBlameOutput out, err := none, logs := logs
        git := { st with
                   blameCache := mapInsert st.blameCache p (parseBlameOutput out)
                   runnerCalls := st.runnerCalls + 1 } } := by
  unfold BlameFile
  rw [hc, if_neg (by rw [hf]; exact Bool.false_ne_true)]
  simp only [hr]

/-- Claim C2: when the first BlameFile call for a path succeeds, the second
call for the same path returns the cached index with no side effects (state
and logs unchanged), and across both calls the subprocess ran at most
once. -/
theorem c2_second_call_is_cache_hit (runner : String → Except String String)
    (p : String) (logs : List String) (st : GitState)
    (h : (BlameFile runner p logs st).err = none) :
    (BlameFile runner p (BlameFile runner p logs st).logs (BlameFile runner p logs st).git).index
        = (BlameFile runner p logs st).index ∧
    (BlameFile runner p (BlameFile runner p logs st).logs (BlameFile runner p logs st).git).err
        = none ∧
    (BlameFile runner p (BlameFile runner p logs st).logs (BlameFile runner p logs st).git).git
        = (BlameFile runner p logs st).git ∧
    (BlameFile runner p (BlameFile runner p logs st).logs (BlameFile runner p logs st).git).logs
        = (BlameFile runner p logs st).logs ∧
    (BlameFile runner p logs st).git.runnerCalls ≤ st.runnerCalls + 1 := by
  rcases hc : mapLookup st.blameCache p with _ | m
  · cases hf : st.blameFailures.contains p
    · rcases hr : runner (normalizeSlashes p) with e | out
      · rw [blameFile_runner_error hc hf hr] at h
        simp at h
      · rw [blameFile_runner_ok hc hf hr]
        rw [blameFile_cache_hit (mapLookup_insert_self st.blameCache p (parseBlameOutput out))]
        exact ⟨rfl, rfl, rfl, rfl, Nat.le_refl _⟩
    · rw [blameFile_memo_hit hc hf] at h
      simp at h
  · rw [blameFile_cache_hit hc]
    rw [blameFile_cache_hit hc]
    exact ⟨rfl, rfl, rfl, rfl, Nat.le_succ _⟩

/-- A fake command runner that always succeeds with empty output. -/
def okRunner : String → Except String String := fun _ => Except.ok ""

/-- Witness for C2: two calls for "a.js" on a fresh state against a
succeeding runner. -/
theorem c2_second_call_is_cache_hit_witness :
    (BlameFile okRunner "a.js" (BlameFile okRunner "a.js" [] GitState.initial).logs
        (BlameFile okRunner "a.js" [] GitState.initial).git).index
      = (BlameFile okRunner "a.js" [] GitState.initial).index ∧
    (BlameFile okRunner "a.js" (BlameFile okRunner "a.js" [] GitState.initial).logs
        (BlameFile okRunner "a.js" [] GitState.initial).git).err = none ∧
    (BlameFile okRunner "a.js" (BlameFile okRunner "a.js" [] GitState.initial).logs
        (BlameFile okRunner "a.js" [] GitState.initial).git).git
      = (BlameFile okRunner "a.js" [] GitState.initial).git ∧
    (BlameFile okRunner "a.js" (BlameFile okRunner "a.js" [] GitState.initial).logs
        (BlameFile okRunner "a.js" [] GitState.initial).git).logs
      = (BlameFile okRunner "a.js" [] GitState.initial).logs ∧
    (BlameFile okRunner "a.js" [] GitState.initial).git.runnerCalls
      ≤ GitState.initial.runnerCalls + 1 :=
  c2_second_call_is_cache_hit okRunner "a.js" [] GitState.initial (by decide)

/-- A fake command runner that always fails. -/
def failRunner : String → Except String String := fun _ => Except.error "exit status 128"

/-- Counterexample for C3 as stated: after a first failed call, the second
call's error is the sentinel "file already failed", not the same error the
first call returned. -/
theorem c3_counterexample_error_changes :
    (BlameFile failRunner "a.js" [] GitState.initial).err = some "exit status 128" ∧
    (BlameFile failRunner "a.js" (BlameFile failRunner "a.js" [] GitState.initial).logs
        (BlameFile failRunner "a.js" [] GitState.initial).git).err
      = some "file already failed" ∧
    (BlameFile failRunner "a.js" [] GitState.initial).err ≠
      (BlameFile failRunner "a.js" (BlameFile failRunner "a.js" [] GitState.initial).logs
        (BlameFile failRunner "a.js" [] GitState.initial).git).err := by
  refine ⟨by decide, by decide, by decide⟩

/-- Claim C3 (amended): after BlameFile returns an error for a path, every
later call for that path returns an empty index and the sentinel
"file already failed" error and leaves the git state — subprocess
invocation count included — unchanged.  (The returned state equals the
state after the first call, so this covers all subsequent calls.) -/
theorem c3_failed_path_never_retried (runner : String → Except String String)
    (p : String) (logs : List String) (st : GitState)
    (h : (BlameFile runner p logs st).err.isSome) (logs' : List String) :
    BlameFile runner p logs' (BlameFile runner p logs st).git =
      { index := [], err := some "file already failed", logs := logs'
        git := (BlameFile runner p logs st).git } := by
  rcases hc : mapLookup st.blameCache p with _ | m
  · cases hf : st.blameFailures.contains p
    · rcases hr : runner (normalizeSlashes p) with e | out
      · rw [blameFile_runner_error hc hf hr]
        exact blameFile_memo_hit hc (by simp)
      · rw [blameFile_runner_ok hc hf hr] at h
        simp at h
    · rw [blameFile_memo_hit hc hf]
      exact blameFile_memo_hit hc hf
  · rw [blameFile_cache_hit hc] at h
    simp at h

/-- Witness for C3's amended theorem: a failing runner on a fresh state. -/
theorem c3_failed_path_never_retried_witness :
    BlameFile failRunner "a.js" [] (BlameFile failRunner "a.js" [] GitState.initial).git =
      { index := [], err := some "file already failed", logs := []
        git := (BlameFile failRunner "a.js" [] GitState.initial).git } :=
  c3_failed_path_never_retried failRunner "a.js" [] GitState.initial (by decide) []

/-- Counterexample for C8 as stated: the cache key is the path as given,
not its normalized form.  "a\\b.js" normalizes to "a/b.js", yet after
blaming "a\\b.js" a call for "a/b.js" is a cache miss and runs the
subprocess a second time. -/
theorem c8_counterexample_separator_variant :
    normalizeSlashes "a\\b.js" = "a/b.js" ∧
    (BlameFile okRunner "a\\b.js" [] GitState.initial).err = none ∧
    (BlameFile okRunner "a/b.js" (BlameFile okRunner "a\\b.js" [] GitState.initial).logs
        (BlameFile okRunner "a\\b.js" [] GitState.initial).git).git.runnerCalls = 2 := by
  refine ⟨by decide, by decide, by decide⟩

/-- Claim C8 (amended): the attribution cache is keyed by the file path
exactly as passed (slash-normalization applies only to the subprocess
argument), so a call for any distinct path — one differing only in
separator convention included — that is neither cached nor memo-failed
invokes the subprocess again. -/
theorem c8_cache_keyed_by_raw_path (runner : String → Except String String)
    (p q : String) (logs : List String) (st : GitState) (hpq : p ≠ q)
    (hq1 : mapLookup st.blameCache q = none)
    (hq2 : st.blameFailures.contains q = false) :
    (BlameFile runner q (BlameFile runner p logs st).logs
        (BlameFile runner p logs st).git).git.runnerCalls
      = (BlameFile runner p logs st).git.runnerCalls + 1 := by
  have step : ∀ (logs₂ : List String) (st₂ : GitState),
      mapLookup st₂.blameCache q = none → st₂.blameFailures.contains q = false →
      (BlameFile runner q logs₂ st₂).git.runnerCalls = st₂.runnerCalls + 1 := by
    intro logs₂ st₂ h1 h2
    rcases hr : runner (normalizeSlashes q) with e | out
    · rw [blameFile_runner_error h1 h2 hr]
    · rw [blameFile_runner_ok h1 h2 hr]
  rcases hc : mapLookup st.blameCache p with _ | m
  · cases hf : st.blameFailures.contains p
    · rcases hr : runner (normalizeSlashes p) with e | out
      · rw [blameFile_runner_error hc hf hr]
        refine step _ _ hq1 ?_
        rw [Bool.eq_false_iff]
        intro hcon
        rcases List.mem_append.mp (List.elem_iff.mp hcon) with hmem | hmem
        · have h2 : st.blameFailures.elem q = false := hq2
          rw [List.elem_iff.mpr hmem] at h2
          exact absurd h2 (by simp)
        · rw [List.mem_singleton] at hmem
          exact hpq hmem.symm
      · rw [blameFile_runner_ok hc hf hr]
        refine step _ _ ?_ hq2
        exact (mapLookup_insert_ne st.blameCache p q (parseBlameOutput out)
          (fun hqp => hpq hqp.symm)).trans hq1
    · rw [blameFile_memo_hit hc hf]
      exact step _ _ hq1 hq2
  · rw [blameFile_cache_hit hc]
    exact step _ _ hq1 hq2

/-- Witness for C8's amended theorem: the separator-variant pair, ending
with two subprocess invocations. -/
theorem c8_cache_keyed_by_raw_path_witness :
    (BlameFile okRunner "a/b.js" (BlameFile okRunner "a\\b.js" [] GitState.initial).logs
        (BlameFile okRunner "a\\b.js" [] GitState.initial).git).git.runnerCalls
      = (BlameFile okRunner "a\\b.js" [] GitState.initial).git.runnerCalls + 1 :=
  c8_cache_keyed_by_raw_path okRunner "a\\b.js" "a/b.js" [] GitState.initial
    (by decide) (by decide) (by decide)

/-! ## Theorems: Semaphore construction (C7) -/

/-- Counterexample for C7 as stated: construction with capacity 0 is not
rejected — `NewSemaphore 0` returns an ordinary semaphore whose channel
capacity is 0, and even its very first non-blocking acquire fails. -/
theorem c7_counterexample_zero_accepted :
    NewSemaphore 0 = { capacity := 0 } ∧ canAcquire (NewSemaphore 0) 0 = false := by
  exact ⟨rfl, rfl⟩

/-- Claim C7 (amended): `NewSemaphore` performs no validation — every
capacity, 0 included, yields a semaphore with exactly the requested
channel capacity — and with capacity 0 no acquire can ever proceed
without blocking, whatever the number of outstanding permits. -/
theorem c7_no_construction_validation :
    (∀ max : Int, NewSemaphore max = { capacity := max }) ∧
    (∀ held : Nat, canAcquire (NewSemaphore 0) held = false) := by
  refine ⟨fun max => rfl, fun held => ?_⟩
  simp only [canAcquire, NewSemaphore, decide_eq_false_iff_not, not_lt]
  exact Int.natCast_nonneg held

/-! ## Theorems: issue processing (C4, C9, C10) -/

theorem blameFile_logs_extend (runner : String → Except String String)
    (p : String) (logs : List String) (st : GitState) :
    logs <+: (BlameFile runner p logs st).logs := by
  rcases hc : mapLookup st.blameCache p with _ | m
  · cases hf : st.blameFailures.contains p
    · rcases hr : runner (normalizeSlashes p) with e | out
      · rw [blameFile_runner_error hc hf hr]
        exact List.prefix_append _ _
      · rw [blameFile_runner_ok hc hf hr]
    · rw [blameFile_memo_hit hc hf]
  · rw [blameFile_cache_hit hc]

theorem processIssueInternal_blame_error
    {runner : String → Except String String} {now : Int} {issue : Issue}
    {cfg : Option Config} {st : AnalyzerState} {e : String}
    (herr : (BlameFile runner issue.filePath st.warningLogs st.git).err = some e) :
    processIssueInternal runner now issue cfg st =
      (some e, { st with warningLogs := (BlameFile runner issue.filePath st.warningLogs st.git).logs
                         git := (BlameFile runner issue.filePath st.warningLogs st.git).git }) := by
  unfold processIssueInternal
  simp only [herr]

theorem processIssueInternal_empty_index
    {runner : String → Except String String} {now : Int} {issue : Issue}
    {cfg : Option Config} {st : AnalyzerState}
    (herr : (BlameFile runner issue.filePath st.warningLogs st.git).err = none)
    (hlen : (BlameFile runner issue.filePath st.warningLogs st.git).index.length = 0) :
    processIssueInternal runner now issue cfg st =
      (none, { st with warningLogs := (BlameFile runner issue.filePath st.warningLogs st.git).logs
                       git := (BlameFile runner issue.filePath st.warningLogs st.git).git }) := by
  unfold processIssueInternal
  simp only [herr, hlen, if_true]

theorem processIssueInternal_no_entry
    {runner : String → Except String String} {now : Int} {issue : Issue}
    {cfg : Option Config} {st : AnalyzerState}
    (herr : (BlameFile runner issue.filePath st.warningLogs st.git).err = none)
    (hlen : ¬ (BlameFile runner issue.filePath st.warningLogs st.git).index.length = 0)
    (hlk : mapLookup (BlameFile runner issue.filePath st.warningLogs st.git).index
        (nearestLine (BlameFile runner issue.filePath st.warningLogs st.git).index issue.line)
        = none) :
    processIssueInternal runner now issue cfg st =
      (none, { st with warningLogs := (BlameFile runner issue.filePath st.warningLogs st.git).logs
                       git := (BlameFile runner issue.filePath st.warningLogs st.git).git }) := by
  unfold processIssueInternal
  simp only [herr, hlen, if_false, hlk]

theorem processIssueInternal_ignored
    {runner : String → Except String String} {now : Int} {issue : Issue}
    {cfg : Option Config} {st : AnalyzerState} {bi : BlameInfo}
    (herr : (BlameFile runner issue.filePath st.warningLogs st.git).err = none)
    (hlen : ¬ (BlameFile runner issue.filePath st.warningLogs st.git).index.length = 0)
    (hlk : mapLookup (BlameFile runner issue.filePath st.warningLogs st.git).index
        (nearestLine (BlameFile runner issue.filePath st.warningLogs st.git).index issue.line)
        = some bi)
    (hig : (match cfg with
            | some c => ShouldIgnoreAuthor c bi.email bi.name
            | none => false) = true) :
    processIssueInternal runner now issue cfg st =
      (none, { st with warningLogs := (BlameFile runner issue.filePath st.warningLogs st.git).logs
                       git := (BlameFile runner issue.filePath st.warningLogs st.git).git }) := by
  unfold processIssueInternal
  simp only [herr, hlen, if_false, hlk, hig, if_true]

theorem processIssueInternal_records
    {runner : String → Except String String} {now : Int} {issue : Issue}
    {cfg : Option Config} {st : AnalyzerState} {bi : BlameInfo}
    (herr : (BlameFile runner issue.filePath st.warningLogs st.git).err = none)
    (hlen : ¬ (BlameFile runner issue.filePath st.warningLogs st.git).index.length = 0)
    (hlk : mapLookup (BlameFile runner issue.filePath st.warningLogs st.git).index
        (nearestLine (BlameFile runner issue.filePath st.warningLogs st.git).index issue.line)
        = some bi)
    (hig : (match cfg with
            | some c => ShouldIgnoreAuthor c bi.email bi.name
            | none => false) = false) :
    processIssueInternal runner now issue cfg st =
      (none, recordIssue now issue bi
        { st with warningLogs := (BlameFile runner issue.filePath st.warningLogs st.git).logs
                  git := (BlameFile runner issue.filePath st.warningLogs st.git).git }) := by
  unfold processIssueInternal
  simp only [herr, hlen, if_false, hlk, hig]
  rw [if_neg Bool.false_ne_true]

/-- Claim C4: whenever attribution errs, or yields an empty index, or the
resolved contributor is excluded by configuration, ProcessIssueWithConfig
leaves authorStats, fileStats and ruleStats exactly as they were; the
warning log is at most extended. -/
theorem c4_dropped_issue_changes_no_stats (env : SysEnv)
    (runner : String → Except String String) (now : Int) (issue : Issue)
    (cfg : Option Config) (st : AnalyzerState)
    (h : (BlameFile runner issue.filePath st.warningLogs st.git).err.isSome
       ∨ (BlameFile runner issue.filePath st.warningLogs st.git).index = []
       ∨ (∃ c bi, cfg = some c ∧
            mapLookup (BlameFile runner issue.filePath st.warningLogs st.git).index
              (nearestLine (BlameFile runner issue.filePath st.warningLogs st.git).index
                issue.line) = some bi ∧
            ShouldIgnoreAuthor c bi.email bi.name = true)) :
    (ProcessIssueWithConfig env runner now issue cfg st).2.authorStats = st.authorStats ∧
    (ProcessIssueWithConfig env runner now issue cfg st).2.fileStats = st.fileStats ∧
    (ProcessIssueWithConfig env runner now issue cfg st).2.ruleStats = st.ruleStats ∧
    st.warningLogs <+: (ProcessIssueWithConfig env runner now issue cfg st).2.warningLogs := by
  have hdrop : (processIssueInternal runner now issue cfg st).2.authorStats = st.authorStats ∧
      (processIssueInternal runner now issue cfg st).2.fileStats = st.fileStats ∧
      (processIssueInternal runner now issue cfg st).2.ruleStats = st.ruleStats ∧
      st.warningLogs <+: (processIssueInternal runner now issue cfg st).2.warningLogs := by
    rcases herr : (BlameFile runner issue.filePath st.warningLogs st.git).err with _ | e
    · rcases h with h1 | h2 | h3
      · rw [herr] at h1
        simp at h1
      · have hlen : (BlameFile runner issue.filePath st.warningLogs st.git).index.length = 0 := by
          rw [h2]
          rfl
        rw [processIssueInternal_empty_index herr hlen]
        exact ⟨rfl, rfl, rfl, blameFile_logs_extend _ _ _ _⟩
      · obtain ⟨c, bi, hcfg, hlk, hig⟩ := h3
        by_cases hlen : (BlameFile runner issue.filePath st.warningLogs st.git).index.length = 0
        · rw [processIssueInternal_empty_index herr hlen]
          exact ⟨rfl, rfl, rfl, blameFile_logs_extend _ _ _ _⟩
        · rw [processIssueInternal_ignored herr hlen hlk (by rw [hcfg]; exact hig)]
          exact ⟨rfl, rfl, rfl, blameFile_logs_extend _ _ _ _⟩
    · rw [processIssueInternal_blame_error herr]
      exact ⟨rfl, rfl, rfl, blameFile_logs_extend _ _ _ _⟩
  unfold ProcessIssueWithConfig
  split
  · exact ⟨rfl, rfl, rfl, List.prefix_refl _⟩
  · split
    · exact ⟨rfl, rfl, rfl, List.prefix_refl _⟩
    · exact hdrop

/-- A SysEnv whose stat always fails and whose glob never matches. -/
def emptySysEnv : SysEnv := { statSize := fun _ => none, globMatch := fun _ _ => false }

/-- A concrete issue used by the witnesses. -/
def exampleIssue : Issue :=
  { filePath := "a.js", line := 1, ruleID := "no-console", message := "", severity := 2 }

/-- The empty analyzer run state. -/
def emptyAnalyzerState : AnalyzerState :=
  { authorStats := [], fileStats := [], ruleStats := [], warningLogs := []
    git := GitState.initial }

/-- Witness for C4: a failing attribution drops the issue from every
aggregate map. -/
theorem c4_dropped_issue_changes_no_stats_witness :
    (ProcessIssueWithConfig emptySysEnv failRunner 0 exampleIssue none
        emptyAnalyzerState).2.authorStats = emptyAnalyzerState.authorStats ∧
    (ProcessIssueWithConfig emptySysEnv failRunner 0 exampleIssue none
        emptyAnalyzerState).2.fileStats = emptyAnalyzerState.fileStats ∧
    (ProcessIssueWithConfig emptySysEnv failRunner 0 exampleIssue none
        emptyAnalyzerState).2.ruleStats = emptyAnalyzerState.ruleStats ∧
    emptyAnalyzerState.warningLogs <+:
      (ProcessIssueWithConfig emptySysEnv failRunner 0 exampleIssue none
        emptyAnalyzerState).2.warningLogs :=
  c4_dropped_issue_changes_no_stats emptySysEnv failRunner 0 exampleIssue none
    emptyAnalyzerState (Or.inl (by decide))

/-- The author record `recordIssue` leaves for the resolved email: the
previous record (or a fresh all-zero one) updated by `updatedAuthor`. -/
theorem recordIssue_author_lookup (now : Int) (issue : Issue) (bi : BlameInfo)
    (st : AnalyzerState) :
    mapLookup (recordIssue now issue bi st).authorStats bi.email =
      some (updatedAuthor now issue bi
        ((mapLookup st.authorStats bi.email).getD (freshAuthorStats now bi))) := by
  unfold recordIssue
  simp only
  rw [mapLookup_insert_self]

/-- Claim C9: when an issue is actually recorded (attribution succeeded,
index non-empty, a contributor resolved), the author's Errors counter is
incremented exactly when the issue's severity is 2, otherwise the Warnings
counter is, and the total Count always is. -/
theorem c9_severity_routes_counters (runner : String → Except String String)
    (now : Int) (issue : Issue) (st : AnalyzerState) (bi : BlameInfo)
    (herr : (BlameFile runner issue.filePath st.warningLogs st.git).err = none)
    (hlen : ¬ (BlameFile runner issue.filePath st.warningLogs st.git).index.length = 0)
    (hlk : mapLookup (BlameFile runner issue.filePath st.warningLogs st.git).index
        (nearestLine (BlameFile runner issue.filePath st.warningLogs st.git).index
          issue.line) = some bi) :
    ∃ s', mapLookup (ProcessIssue runner now issue st).2.authorStats bi.email = some s' ∧
      s'.count = ((mapLookup st.authorStats bi.email).getD
          (freshAuthorStats now bi)).count + 1 ∧
      (s'.errors = ((mapLookup st.authorStats bi.email).getD
          (freshAuthorStats now bi)).errors + 1 ↔ issue.severity = 2) ∧
      (s'.warnings = ((mapLookup st.authorStats bi.email).getD
          (freshAuthorStats now bi)).warnings + 1 ↔ issue.severity ≠ 2) := by
  unfold ProcessIssue
  rw [processIssueInternal_records herr hlen hlk rfl]
  refine ⟨_, recordIssue_author_lookup now issue bi _, ?_, ?_, ?_⟩
  · simp [updatedAuthor]
  · simp only [updatedAuthor]
    cases hsev : issue.severity == 2
    · have h2 : issue.severity ≠ 2 := by
        intro hcon
        rw [hcon] at hsev
        simp at hsev
      rw [if_neg Bool.false_ne_true]
      constructor
      · intro hcon
        omega
      · intro hcon
        exact absurd hcon h2
    · have h2 : issue.severity = 2 := by
        have h3 := hsev
        rwa [beq_iff_eq] at h3
      rw [if_pos rfl]
      exact ⟨fun _ => h2, fun _ => rfl⟩
  · simp only [updatedAuthor]
    cases hsev : issue.severity == 2
    · have h2 : issue.severity ≠ 2 := by
        intro hcon
        rw [hcon] at hsev
        simp at hsev
      rw [if_neg Bool.false_ne_true]
      exact ⟨fun _ => h2, fun _ => rfl⟩
    · have h2 : issue.severity = 2 := by
        have h3 := hsev
        rwa [beq_iff_eq] at h3
      rw [if_pos rfl]
      constructor
      · intro hcon
        omega
      · intro hcon
        exact absurd h2 hcon

/-- A runner whose blame output attributes line 1 to alice@x. -/
def sampleRunner : String → Except String String := fun _ => Except.ok sampleBlameOutput

/-- Witness for C9: a severity-2 issue at line 1 of a file blamed to
alice@x bumps alice's counters. -/
theorem c9_severity_routes_counters_witness :
    ∃ s', mapLookup (ProcessIssue sampleRunner 0 exampleIssue
        emptyAnalyzerState).2.authorStats (BlameInfo.email ⟨"alice@x", "Alice"⟩) = some s' ∧
      s'.count = ((mapLookup emptyAnalyzerState.authorStats
          (BlameInfo.email ⟨"alice@x", "Alice"⟩)).getD
          (freshAuthorStats 0 ⟨"alice@x", "Alice"⟩)).count + 1 ∧
      (s'.errors = ((mapLookup emptyAnalyzerState.authorStats
          (BlameInfo.email ⟨"alice@x", "Alice"⟩)).getD
          (freshAuthorStats 0 ⟨"alice@x", "Alice"⟩)).errors + 1 ↔
        exampleIssue.severity = 2) ∧
      (s'.warnings = ((mapLookup emptyAnalyzerState.authorStats
          (BlameInfo.email ⟨"alice@x", "Alice"⟩)).getD
          (freshAuthorStats 0 ⟨"alice@x", "Alice"⟩)).warnings + 1 ↔
        exampleIssue.severity ≠ 2) :=
  c9_severity_routes_counters sampleRunner 0 exampleIssue emptyAnalyzerState
    ⟨"alice@x", "Alice"⟩ (by decide) (by decide) (by decide)

/-- Every author record satisfies Count = Errors + Warnings. -/
def authorCountInvariant (m : List (String × AuthorStats)) : Prop :=
  ∀ p ∈ m, p.2.count = p.2.errors + p.2.warnings

theorem updatedAuthor_count (now : Int) (issue : Issue) (bi : BlameInfo)
    (prev : AuthorStats) (hc : prev.count = prev.errors + prev.warnings) :
    (updatedAuthor now issue bi prev).count =
      (updatedAuthor now issue bi prev).errors + (updatedAuthor now issue bi prev).warnings := by
  unfold updatedAuthor
  cases issue.severity == 2 <;> simp <;> omega

theorem recordIssue_keeps_invariant (now : Int) (issue : Issue) (bi : BlameInfo)
    (st : AnalyzerState) (h : authorCountInvariant st.authorStats) :
    authorCountInvariant (recordIssue now issue bi st).authorStats := by
  intro p hp
  unfold recordIssue at hp
  simp only at hp
  rcases mem_mapInsert hp with rfl | hmem
  · refine updatedAuthor_count now issue bi _ ?_
    rcases hlk : mapLookup st.authorStats bi.email with _ | s
    · rfl
    · simpa using h _ (mapLookup_mem hlk)
  · exact h p hmem

/-- Claim C10: Count = Errors + Warnings holds for every author entry and
is preserved by every ProcessIssue call — entries are created with all
three counters zero and each recorded issue bumps Count and exactly one of
Errors/Warnings. -/
theorem c10_count_invariant_preserved (runner : String → Except String String)
    (now : Int) (issue : Issue) (st : AnalyzerState)
    (h : authorCountInvariant st.authorStats) :
    authorCountInvariant (ProcessIssue runner now issue st).2.authorStats := by
  unfold ProcessIssue
  rcases herr : (BlameFile runner issue.filePath st.warningLogs st.git).err with _ | e
  · by_cases hlen : (BlameFile runner issue.filePath st.warningLogs st.git).index.length = 0
    · rw [processIssueInternal_empty_index herr hlen]
      exact h
    · rcases hlk : mapLookup (BlameFile runner issue.filePath st.warningLogs st.git).index
          (nearestLine (BlameFile runner issue.filePath st.warningLogs st.git).index
            issue.line) with _ | bi
      · rw [processIssueInternal_no_entry herr hlen hlk]
        exact h
      · rw [processIssueInternal_records herr hlen hlk rfl]
        exact recordIssue_keeps_invariant now issue bi _ h
  · rw [processIssueInternal_blame_error herr]
    exact h

/-- Witness for C10: the invariant holds vacuously on the empty state and
is preserved through a full successful ProcessIssue call. -/
theorem c10_count_invariant_preserved_witness :
    authorCountInvariant (ProcessIssue sampleRunner 0 exampleIssue
      emptyAnalyzerState).2.authorStats :=
  c10_count_invariant_preserved sampleRunner 0 exampleIssue emptyAnalyzerState
    (fun p hp => absurd hp (List.not_mem_nil p))

/-! ## Theorems: bug-density extraction (C6) -/

/-- A `git log --name-only --pretty=format:%H|%s` output of five commits,
each touching the tracked file a.go; the first message is bug-indicating.
No commit header follows the last commit. -/
def fiveCommitLog : String :=
  "aaa1|fix one\n\na.go\n\naaa2|normal two\n\na.go\n\naaa3|normal three\n\na.go\n\naaa4|normal four\n\na.go\n\naaa5|normal five\n\na.go"

/-- Claim C6 exhibits a counting bug: on a log of five commits that each
touch a.go, the extractor reports nothing — a commit's files are only
counted when a later commit-header line flushes them, so the log's final
commit is never counted and a.go reaches only TotalCommits = 4, below the
≥ 5 floor.  Appending a sixth trailing commit flushes the fifth, and a.go
is then reported with BugFixes = 1, TotalCommits = 5 as the claim
expects. -/
theorem c6_last_commit_never_counted :
    GenerateBugDensityLeaderboard ["a.go"] 10 fiveCommitLog = [] ∧
    (GenerateBugDensityLeaderboard ["a.go"] 10
        (fiveCommitLog ++ "\n\nzzzz|sentinel")).map
        (fun e => (e.path, e.bugFixes, e.totalCommits)) = [("a.go", 1, 5)] :=
  ⟨by decide, by decide⟩

end CodeCompass
